import Mathlib

/-!
Verification of the keycloak group-to-role mapper (`mapper.go`).

The program walks a Keycloak group forest, classifies each group as mapped
(a realm role with the group's own name is already mapped to it) or
unmapped, accumulates the missing roles and missing group-role mappings,
prints the plan, and — after an interactive confirmation — creates the
missing roles and then the missing mappings through the Keycloak admin API.

The embedding below models:
* the group forest and the role catalogue (`Group`, `Store`),
* the reconciliation walk `prepareMapper` / `prepareMapperForGroup`
  with its accumulator state (`MState`: the visit log, `missingRoles`,
  and the `groupsWithMissingRole` map embedded as an association list
  with overwrite-on-insert semantics, mirroring Go map assignment),
* the report `printMapper`,
* the apply phase `createRolesAndMappings` as a generator of the sequence
  of identity-store calls, parameterised by a `Behavior` describing which
  remote calls fail (calls whose Go error is consulted panic and abort;
  the `AddRealmRoles` call result is discarded by the source, and the
  embedding mirrors that),
* the effect of a successful apply on the store (`applyChangeSet`),
  used for the idempotence property.
-/

set_option autoImplicit false

namespace Mapper

/-- A Keycloak realm role as seen by the mapper: `keycloak.Role` with its
`ID` pointer (absent when the role does not exist) and its `Name`. -/
structure Role where
  id : Option String
  name : String
  deriving Repr, DecidableEq

/-- A Keycloak group: provider-assigned identifier, display name, the realm
role names currently mapped to it (as returned by `Groups.Get`), and its
sub-groups. -/
inductive Group : Type where
  | mk (id : String) (name : String) (realmRoles : List String) (subGroups : List Group)

def Group.id : Group → String
  | .mk i _ _ _ => i

def Group.name : Group → String
  | .mk _ n _ _ => n

def Group.realmRoles : Group → List String
  | .mk _ _ r _ => r

def Group.subGroups : Group → List Group
  | .mk _ _ _ s => s

/-- The provider state the walk reads: the realm-role catalogue (role names
that exist) and the group forest returned by `Groups.List`. -/
structure Store where
  roles : List String
  forest : List Group

/-- The mutable state accumulated by the walk: the log of visited group ids
(one entry per `prepareMapperForGroup` invocation, mirroring its leading
`Printf`), the `missingRoles` slice, and the `groupsWithMissingRole` map. -/
structure MState where
  log : List String
  missingRoles : List String
  groups : List (String × String)
  deriving Repr, DecidableEq

/-- Go map assignment `m[k] = v`: overwrite the entry for `k` if present,
otherwise append a new entry. -/
def mapSet (m : List (String × String)) (k v : String) : List (String × String) :=
  match m with
  | [] => [(k, v)]
  | (k', v') :: rest => if k' == k then (k, v) :: rest else (k', v') :: mapSet rest k v

/-- The classification loop of `prepareMapperForGroup` (lines 134-141):
scan the group's currently mapped realm-role names for one equal to the
group's own name (Go `==` on strings: exact, case-sensitive). -/
def groupMapped (name : String) : List String → Bool
  | [] => false
  | r :: rest => if r == name then true else groupMapped name rest

/-- The body of `prepareMapperForGroup` for one group, before the recursion
into sub-groups: log the visit; if unmapped, look the role up by the group
name in the catalogue (`getRoleGyName`; its `ID` is nil exactly when the
name is absent from the catalogue), append to `missingRoles` when absent,
and record `groupsWithMissingRole[id] = name` in both unmapped sub-cases. -/
def visitGroup (cat : List String) (st : MState) (id name : String)
    (realmRoles : List String) : MState :=
  let st1 : MState := { st with log := st.log ++ [id] }
  if groupMapped name realmRoles then
    st1
  else
    let st2 : MState :=
      if cat.contains name then st1
      else { st1 with missingRoles := st1.missingRoles ++ [name] }
    { st2 with groups := mapSet st2.groups id name }

mutual

/-- `prepareMapperForGroup` (lines 127-159): process one group, then recurse
into each sub-group unconditionally. -/
def prepareMapperForGroup (cat : List String) (st : MState) (g : Group) : MState :=
  match g with
  | .mk id name realmRoles subs =>
      prepareMapperForGroups cat (visitGroup cat st id name realmRoles) subs

/-- The iteration of `prepareMapperForGroup` over a list of groups — the
root loop of `prepareMapper` (lines 122-124) and the sub-group loop
(lines 155-158). -/
def prepareMapperForGroups (cat : List String) (st : MState) : List Group → MState
  | [] => st
  | g :: gs => prepareMapperForGroups cat (prepareMapperForGroup cat st g) gs

end

/-- `prepareMapper` (lines 117-125): walk the whole forest starting from the
empty accumulator state. -/
def prepareMapper (s : Store) : MState :=
  prepareMapperForGroups s.roles ⟨[], [], []⟩ s.forest

/-- The change set handed to the reporter and the applier: the pair of the
`missingRoles` slice and the `groupsWithMissingRole` map. -/
def MState.changeSet (st : MState) : List String × List (String × String) :=
  (st.missingRoles, st.groups)

mutual

/-- Pre-order flattening of one group: the node's (id, name, realmRoles)
triple followed by the flattening of its sub-groups. Specification device
for reasoning about the walk. -/
def preorderG : Group → List (String × String × List String)
  | .mk id name realmRoles subs => (id, name, realmRoles) :: preorderF subs

/-- Pre-order flattening of a forest. -/
def preorderF : List Group → List (String × String × List String)
  | [] => []
  | g :: gs => preorderG g ++ preorderF gs

end

/-! ### Reporter (`printMapper`) -/

/-- `anyConfigurationNeeded` (lines 176-178). -/
def anyConfigurationNeeded (st : MState) : Bool :=
  decide (st.missingRoles.length > 0) || decide (st.groups.length > 0)

/-- The report produced by `printMapper`: either the single
"no changes needed" statement, or the enumeration of the role names to be
created and of the "Group g to Role r" lines (one per
`groupsWithMissingRole` entry; the source prints the entry's value — the
group name — in both positions). -/
inductive Report where
  | noChanges
  | changes (roleNames : List String) (mappingLines : List (String × String))
  deriving Repr, DecidableEq

/-- `printMapper` (lines 161-174). -/
def printMapper (st : MState) : Report :=
  if anyConfigurationNeeded st then
    .changes st.missingRoles (st.groups.map (fun p => (p.2, p.2)))
  else
    .noChanges

/-! ### Apply phase (`createRolesAndMappings`) -/

/-- One identity-store call issued by the apply phase. -/
inductive Call where
  | createRole (name : String)
  | getByName (name : String)
  | addRealmRoles (groupId : String) (roleName : String)
  deriving Repr, DecidableEq

/-- Which remote calls fail, and the role ids the store reports: the
behaviour of the external identity store during one apply run.
`addFails` describes whether `AddRealmRoles` reports an error — the source
discards that result, so the embedding of the run never consults it. -/
structure Behavior where
  createFails : String → Bool
  getFails : String → Bool
  roleIdFor : String → String
  addFails : String → String → Bool

/-- `createRoleByName` (lines 200-207): issue the `Create` call; panic
(second component `true`) iff the store reports an error. -/
def createRoleByName (b : Behavior) (name : String) : List Call × Bool :=
  ([Call.createRole name], b.createFails name)

/-- `getRoleGyName` (lines 209-215): issue the `GetByName` call; panic iff
the store reports an error, otherwise return the role. -/
def getRoleGyName (b : Behavior) (name : String) : List Call × Bool × Role :=
  ([Call.getByName name], b.getFails name, ⟨some (b.roleIdFor name), name⟩)

/-- `addRoleToGroup` (lines 217-223): look the group name up in
`groupsWithMissingRole`, re-resolve the role by that name (panics on
lookup error), then call `AddRealmRoles` with the re-resolved role.
The `AddRealmRoles` result is discarded by the source (line 222), so the
call never aborts the run. The `role` parameter is never read. -/
def addRoleToGroup (b : Behavior) (m : List (String × String))
    (groupID : String) (role : Role) : List Call × Bool :=
  let groupName := ((List.lookup groupID m).getD "")
  let (c1, failed1, mappedRole) := getRoleGyName b groupName
  if failed1 then (c1, true)
  else (c1 ++ [Call.addRealmRoles groupID mappedRole.name], false)

/-- The role-creation loop of `createRolesAndMappings` (lines 189-191):
create each missing role in order, aborting at the first failure. -/
def runCreates (b : Behavior) : List String → List Call × Bool
  | [] => ([], false)
  | n :: rest =>
    let (c, failed) := createRoleByName b n
    if failed then (c, true)
    else
      let (cs, aborted) := runCreates b rest
      (c ++ cs, aborted)

/-- The mapping-creation loop of `createRolesAndMappings` (lines 193-195):
for each `groupsWithMissingRole` entry, evaluate the `getRoleGyName`
argument (panics on error) and invoke `addRoleToGroup`. -/
def runMappings (b : Behavior) (m : List (String × String)) :
    List (String × String) → List Call × Bool
  | [] => ([], false)
  | (gid, gname) :: rest =>
    let (c1, failed1, r) := getRoleGyName b gname
    if failed1 then (c1, true)
    else
      let (c2, aborted2) := addRoleToGroup b m gid r
      if aborted2 then (c1 ++ c2, true)
      else
        let (cs, aborted) := runMappings b m rest
        (c1 ++ c2 ++ cs, aborted)

/-- Go `strings.HasPrefix(s, p)` over the characters of the strings. -/
def beginsWith : List Char → List Char → Bool
  | _, [] => true
  | [], _ :: _ => false
  | c :: cs, p :: ps => if c == p then beginsWith cs ps else false

/-- Go `strings.TrimSpace`: drop leading and trailing whitespace. -/
def trimSpace (s : String) : String :=
  ⟨((s.data.dropWhile Char.isWhitespace).reverse.dropWhile Char.isWhitespace).reverse⟩

/-- Go `strings.ToUpper`: upper-case every character. -/
def toUpperStr (s : String) : String :=
  ⟨s.data.map Char.toUpper⟩

/-- The confirmation check of `createRolesAndMappings` (line 187):
`strings.HasPrefix(strings.ToUpper(strings.TrimSpace(answer)), "Y")`. -/
def confirmed (answer : String) : Bool :=
  beginsWith (toUpperStr (trimSpace answer)).data ['Y']

/-- `createRolesAndMappings` (lines 180-198): if any configuration is
needed and the operator confirms, run all role creations, then (unless a
creation panicked) all mapping creations. Returns the issued calls and
whether the run panicked. -/
def createRolesAndMappings (b : Behavior) (st : MState) (answer : String) :
    List Call × Bool :=
  if anyConfigurationNeeded st then
    if confirmed answer then
      let (cs, aborted) := runCreates b st.missingRoles
      if aborted then (cs, true)
      else
        let (ms, aborted2) := runMappings b st.groups st.groups
        (cs ++ ms, aborted2)
    else ([], false)
  else ([], false)

/-! ### Effect of a successful apply on the provider state -/

mutual

/-- Add the role named `rname` to the mapped realm roles of every group
with id `gid` in the given group. The effect of a successful
`AddRealmRoles(gid, [role rname])` on the provider state. -/
def addRoleG (gid rname : String) : Group → Group
  | .mk i n r subs =>
      .mk i n (if i == gid then r ++ [rname] else r) (addRoleF gid rname subs)

/-- `addRoleG` over a forest. -/
def addRoleF (gid rname : String) : List Group → List Group
  | [] => []
  | g :: gs => addRoleG gid rname g :: addRoleF gid rname gs

end

/-- The effect on the forest of successfully applying every mapping
creation of the change set, in order. -/
def applyMappings (es : List (String × String)) (forest : List Group) : List Group :=
  es.foldl (fun f e => addRoleF e.1 e.2 f) forest

/-- The provider state after a run of `createRolesAndMappings` in which
every remote call succeeded: the missing roles are all created (added to
the catalogue), then each `groupsWithMissingRole` entry `(gid, gname)` has
the role re-resolved by `gname` — whose name is `gname` — mapped to the
group `gid`. -/
def applyChangeSet (s : Store) (st : MState) : Store :=
  { roles := s.roles ++ st.missingRoles
    forest := applyMappings st.groups s.forest }

/-- The ids of all groups in a forest, in visit order. -/
def forestIds (gs : List Group) : List String :=
  (preorderF gs).map (fun x => x.1)

/-! ## Helper lemmas -/

theorem groupMapped_eq_true_iff (name : String) (l : List String) :
    groupMapped name l = true ↔ name ∈ l := by
  induction l with
  | nil => simp [groupMapped]
  | cons r rest ih =>
    by_cases h : r = name
    · subst h
      simp [groupMapped]
    · have hb : (r == name) = false := by
        simp [h]
      simp [groupMapped, hb, ih, Ne.symm h]

/-- `visitGroup` as a step function on pre-order node triples. -/
def stepNode (cat : List String) (st : MState) (x : String × String × List String) :
    MState :=
  visitGroup cat st x.1 x.2.1 x.2.2

/-- The `missingRoles` contribution of one node: its name when the node is
unmapped and the name is absent from the role catalogue. -/
def roleMissingOf (cat : List String) (x : String × String × List String) :
    Option String :=
  if groupMapped x.2.1 x.2.2 then none
  else if cat.contains x.2.1 then none
  else some x.2.1

/-- The `groupsWithMissingRole` contribution of one node: its (id, name)
pair when the node is unmapped. -/
def unmappedPair (x : String × String × List String) : Option (String × String) :=
  if groupMapped x.2.1 x.2.2 then none else some (x.1, x.2.1)

mutual

theorem prepareMapperForGroup_eq_foldl (cat : List String) (st : MState) (g : Group) :
    prepareMapperForGroup cat st g = (preorderG g).foldl (stepNode cat) st := by
  cases g with
  | mk i n r subs =>
    show prepareMapperForGroups cat (visitGroup cat st i n r) subs
        = ((i, n, r) :: preorderF subs).foldl (stepNode cat) st
    rw [List.foldl_cons]
    exact prepareMapperForGroups_eq_foldl cat (visitGroup cat st i n r) subs

theorem prepareMapperForGroups_eq_foldl (cat : List String) (st : MState)
    (gs : List Group) :
    prepareMapperForGroups cat st gs = (preorderF gs).foldl (stepNode cat) st := by
  cases gs with
  | nil => rfl
  | cons g rest =>
    show prepareMapperForGroups cat (prepareMapperForGroup cat st g) rest
        = (preorderG g ++ preorderF rest).foldl (stepNode cat) st
    rw [List.foldl_append,
      prepareMapperForGroups_eq_foldl cat (prepareMapperForGroup cat st g) rest,
      prepareMapperForGroup_eq_foldl cat st g]

end

theorem stepNode_log (cat : List String) (st : MState)
    (x : String × String × List String) :
    (stepNode cat st x).log = st.log ++ [x.1] := by
  rcases x with ⟨i, n, r⟩
  simp only [stepNode, visitGroup]
  by_cases h : groupMapped n r <;> by_cases h2 : n ∈ cat <;> simp [h, h2]

theorem stepNode_missingRoles (cat : List String) (st : MState)
    (x : String × String × List String) :
    (stepNode cat st x).missingRoles
      = st.missingRoles ++ (roleMissingOf cat x).toList := by
  rcases x with ⟨i, n, r⟩
  simp only [stepNode, visitGroup, roleMissingOf]
  by_cases h : groupMapped n r <;> by_cases h2 : n ∈ cat <;> simp [h, h2]

theorem stepNode_groups (cat : List String) (st : MState)
    (x : String × String × List String) :
    (stepNode cat st x).groups
      = (unmappedPair x).toList.foldl (fun m p => mapSet m p.1 p.2) st.groups := by
  rcases x with ⟨i, n, r⟩
  simp only [stepNode, visitGroup, unmappedPair]
  by_cases h : groupMapped n r <;> by_cases h2 : n ∈ cat <;> simp [h, h2]

theorem foldl_stepNode_log (cat : List String) (ns : List (String × String × List String))
    (st : MState) :
    (ns.foldl (stepNode cat) st).log = st.log ++ ns.map (fun x => x.1) := by
  induction ns generalizing st with
  | nil => simp
  | cons x rest ih =>
    rw [List.foldl_cons, ih, stepNode_log]
    simp

theorem foldl_stepNode_missingRoles (cat : List String)
    (ns : List (String × String × List String)) (st : MState) :
    (ns.foldl (stepNode cat) st).missingRoles
      = st.missingRoles ++ ns.filterMap (roleMissingOf cat) := by
  induction ns generalizing st with
  | nil => simp
  | cons x rest ih =>
    rw [List.foldl_cons, ih, stepNode_missingRoles]
    cases h : roleMissingOf cat x <;> simp [h, List.filterMap_cons]

theorem foldl_stepNode_groups (cat : List String)
    (ns : List (String × String × List String)) (st : MState) :
    (ns.foldl (stepNode cat) st).groups
      = (ns.filterMap unmappedPair).foldl (fun m p => mapSet m p.1 p.2) st.groups := by
  induction ns generalizing st with
  | nil => simp
  | cons x rest ih =>
    rw [List.foldl_cons, ih, stepNode_groups]
    cases h : unmappedPair x <;> simp [h, List.filterMap_cons]

theorem mapSet_of_not_mem (m : List (String × String)) (k v : String)
    (h : k ∉ m.map Prod.fst) : mapSet m k v = m ++ [(k, v)] := by
  induction m with
  | nil => rfl
  | cons p rest ih =>
    rcases p with ⟨k', v'⟩
    simp only [List.map_cons, List.mem_cons, not_or] at h
    have hb : (k' == k) = false := by
      simp [Ne.symm h.1]
    simp [mapSet, hb, ih h.2]

theorem foldl_mapSet_of_nodup (ps : List (String × String)) :
    ∀ m : List (String × String),
    (∀ k ∈ ps.map Prod.fst, k ∉ m.map Prod.fst) → (ps.map Prod.fst).Nodup →
    ps.foldl (fun m p => mapSet m p.1 p.2) m = m ++ ps := by
  induction ps with
  | nil => intro m _ _; simp
  | cons p rest ih =>
    intro m hd hn
    rcases p with ⟨k, v⟩
    simp only [List.map_cons, List.nodup_cons] at hn
    have hkm : k ∉ m.map Prod.fst := hd k (by simp)
    rw [List.foldl_cons]
    show rest.foldl (fun m p => mapSet m p.1 p.2) (mapSet m k v) = m ++ (k, v) :: rest
    rw [mapSet_of_not_mem m k v hkm,
      ih (m ++ [(k, v)])
        (by
          intro k2 hk2
          simp only [List.map_append, List.mem_append, List.map_cons, List.map_nil,
            List.mem_singleton, not_or]
          refine ⟨hd k2 (by simp [hk2]), ?_⟩
          intro hkk
          exact hn.1 (hkk ▸ hk2))
        hn.2]
    simp

theorem lookup_eq_of_mem_of_nodupKeys (l : List (String × String)) (k v : String)
    (hn : (l.map Prod.fst).Nodup) (hm : (k, v) ∈ l) : List.lookup k l = some v := by
  induction l with
  | nil => simp at hm
  | cons p rest ih =>
    rcases p with ⟨k', v'⟩
    simp only [List.map_cons, List.nodup_cons] at hn
    rcases List.mem_cons.mp hm with h | h
    · rcases Prod.mk.injEq .. ▸ h with ⟨h1, h2⟩
      subst h1; subst h2
      simp [List.lookup]
    · have hne : (k == k') = false := by
        have : k ∈ rest.map Prod.fst := by
          exact List.mem_map_of_mem Prod.fst h
        have : k' ≠ k := fun he => hn.1 (he ▸ this)
        simp [Ne.symm this]
      simp [List.lookup, hne, ih hn.2 h]

theorem filter_keyEq_of_mem_of_nodupKeys (l : List (String × String)) (i n : String)
    (hn : (l.map Prod.fst).Nodup) (hm : (i, n) ∈ l) :
    l.filter (fun e => e.1 == i) = [(i, n)] := by
  induction l with
  | nil => simp at hm
  | cons p rest ih =>
    rcases p with ⟨k', v'⟩
    simp only [List.map_cons, List.nodup_cons] at hn
    rcases List.mem_cons.mp hm with h | h
    · rcases Prod.mk.injEq .. ▸ h with ⟨h1, h2⟩
      subst h1; subst h2
      have hrest : rest.filter (fun e => e.1 == i) = [] := by
        apply List.filter_eq_nil_iff.mpr
        intro e he hbeq
        exact hn.1 ((eq_of_beq hbeq) ▸ List.mem_map_of_mem Prod.fst he)
      simp [List.filter_cons, hrest]
    · have hne : (k' == i) = false := by
        have : i ∈ rest.map Prod.fst := List.mem_map_of_mem Prod.fst h
        have hni : k' ≠ i := fun he => hn.1 (he ▸ this)
        simp [hni]
      simp [List.filter_cons, hne, ih hn.2 h]

theorem filter_keyEq_of_not_mem (l : List (String × String)) (i : String)
    (h : i ∉ l.map Prod.fst) : l.filter (fun e => e.1 == i) = [] := by
  apply List.filter_eq_nil_iff.mpr
  intro e he hbeq
  exact h ((eq_of_beq hbeq) ▸ List.mem_map_of_mem Prod.fst he)

theorem filterMap_roleMissingOf_sublist (cat : List String)
    (ns : List (String × String × List String)) :
    (ns.filterMap (roleMissingOf cat)).Sublist (ns.map (fun x => x.2.1)) := by
  induction ns with
  | nil => simp
  | cons x rest ih =>
    rw [List.filterMap_cons, List.map_cons]
    cases h : roleMissingOf cat x with
    | none => exact ih.cons _
    | some y =>
      have hy : y = x.2.1 := by
        simp only [roleMissingOf] at h
        split at h
        · exact absurd h (by simp)
        · split at h
          · exact absurd h (by simp)
          · exact (Option.some.injEq .. ▸ h).symm
      rw [hy]
      exact ih.cons₂ _

theorem filterMap_unmappedPair_keys_sublist
    (ns : List (String × String × List String)) :
    ((ns.filterMap unmappedPair).map Prod.fst).Sublist (ns.map (fun x => x.1)) := by
  induction ns with
  | nil => simp
  | cons x rest ih =>
    rw [List.filterMap_cons, List.map_cons]
    cases h : unmappedPair x with
    | none => exact ih.cons _
    | some p =>
      have hp : p = (x.1, x.2.1) := by
        simp only [unmappedPair] at h
        split at h
        · exact absurd h (by simp)
        · exact (Option.some.injEq .. ▸ h).symm
      rw [List.map_cons, hp]
      exact ih.cons₂ _

theorem unmappedPair_eq_some_iff (x : String × String × List String) :
    unmappedPair x = some (x.1, x.2.1) ↔ groupMapped x.2.1 x.2.2 = false := by
  simp only [unmappedPair]
  constructor
  · intro h
    split at h
    · exact absurd h (by simp)
    · simp_all
  · intro h
    simp [h]

/-- The pointwise effect of `addRoleG gid rname` on a pre-order node. -/
def updRole (gid rname : String) (x : String × String × List String) :
    String × String × List String :=
  (x.1, x.2.1, if x.1 == gid then x.2.2 ++ [rname] else x.2.2)

mutual

theorem preorderG_addRoleG (gid rname : String) (g : Group) :
    preorderG (addRoleG gid rname g) = (preorderG g).map (updRole gid rname) := by
  cases g with
  | mk i n r subs =>
    show (i, n, if i == gid then r ++ [rname] else r) :: preorderF (addRoleF gid rname subs)
        = updRole gid rname (i, n, r) :: (preorderF subs).map (updRole gid rname)
    rw [preorderF_addRoleF gid rname subs]
    rfl

theorem preorderF_addRoleF (gid rname : String) (gs : List Group) :
    preorderF (addRoleF gid rname gs) = (preorderF gs).map (updRole gid rname) := by
  cases gs with
  | nil => rfl
  | cons g rest =>
    show preorderG (addRoleG gid rname g) ++ preorderF (addRoleF gid rname rest)
        = (preorderG g ++ preorderF rest).map (updRole gid rname)
    rw [List.map_append, preorderG_addRoleG gid rname g,
      preorderF_addRoleF gid rname rest]

end

theorem preorderF_applyMappings (es : List (String × String)) (gs : List Group) :
    preorderF (applyMappings es gs)
      = (preorderF gs).map (fun x =>
          (x.1, x.2.1, x.2.2 ++ (es.filter (fun e => e.1 == x.1)).map Prod.snd)) := by
  induction es generalizing gs with
  | nil =>
    show preorderF gs = (preorderF gs).map (fun x => (x.1, x.2.1, x.2.2 ++ []))
    simp
  | cons e rest ih =>
    rcases e with ⟨g, r⟩
    show preorderF (applyMappings rest (addRoleF g r gs)) = _
    rw [ih (addRoleF g r gs), preorderF_addRoleF g r gs, List.map_map]
    apply List.map_congr_left
    intro x _
    simp only [Function.comp_apply, updRole, List.filter_cons]
    by_cases hx : x.1 = g
    · have h1 : (x.1 == g) = true := by simp [hx]
      have h2 : ((g, r).1 == x.1) = true := by simp [hx]
      simp [h1, h2]
    · have h1 : (x.1 == g) = false := by simp [hx]
      have h2 : ((g, r).1 == x.1) = false := by simp [Ne.symm hx]
      simp [h1, h2]

theorem runCreates_all_create (b : Behavior) (l : List String) :
    ∀ c ∈ (runCreates b l).1, ∃ n, c = Call.createRole n := by
  induction l with
  | nil => simp [runCreates]
  | cons n rest ih =>
    intro c hc
    simp only [runCreates, createRoleByName] at hc
    by_cases hf : b.createFails n
    · simp [hf] at hc
      exact ⟨n, hc⟩
    · simp [hf] at hc
      rcases hc with h | h
      · exact ⟨n, h⟩
      · exact ih c h

theorem runCreates_complete (b : Behavior) (l : List String)
    (h : (runCreates b l).2 = false) :
    (runCreates b l).1 = l.map Call.createRole := by
  induction l with
  | nil => simp [runCreates]
  | cons n rest ih =>
    simp only [runCreates, createRoleByName] at h ⊢
    by_cases hf : b.createFails n
    · simp [hf] at h
    · simp only [hf, Bool.false_eq_true, if_false] at h ⊢
      simp at h ⊢
      exact ih h

theorem runMappings_no_create (b : Behavior) (m : List (String × String))
    (l : List (String × String)) :
    ∀ c ∈ (runMappings b m l).1, ∀ n, c ≠ Call.createRole n := by
  induction l with
  | nil => simp [runMappings]
  | cons e rest ih =>
    rcases e with ⟨gid, gname⟩
    intro c hc n
    simp only [runMappings, getRoleGyName, addRoleToGroup] at hc
    by_cases h1 : b.getFails gname
    · simp [h1] at hc
      simp [hc]
    · by_cases h2 : b.getFails ((List.lookup gid m).getD "")
      · simp [h1, h2] at hc
        rcases hc with h | h <;> simp [h]
      · simp [h1, h2] at hc
        rcases hc with h | h | h | h
        · simp [h]
        · simp [h]
        · simp [h]
        · exact ih c h n

theorem createRolesAndMappings_declined (b : Behavior) (st : MState)
    (answer : String) (h : confirmed answer = false) :
    createRolesAndMappings b st answer = ([], false) := by
  simp only [createRolesAndMappings, h]
  split <;> simp

theorem prepareMapper_log (s : Store) :
    (prepareMapper s).log = (preorderF s.forest).map (fun x => x.1) := by
  rw [prepareMapper, prepareMapperForGroups_eq_foldl, foldl_stepNode_log]
  rfl

theorem prepareMapper_missingRoles (s : Store) :
    (prepareMapper s).missingRoles
      = (preorderF s.forest).filterMap (roleMissingOf s.roles) := by
  rw [prepareMapper, prepareMapperForGroups_eq_foldl, foldl_stepNode_missingRoles]
  rfl

theorem prepareMapper_groups_foldl (s : Store) :
    (prepareMapper s).groups
      = ((preorderF s.forest).filterMap unmappedPair).foldl
          (fun m p => mapSet m p.1 p.2) [] := by
  rw [prepareMapper, prepareMapperForGroups_eq_foldl, foldl_stepNode_groups]

theorem prepareMapper_groups (s : Store) (hids : (forestIds s.forest).Nodup) :
    (prepareMapper s).groups = (preorderF s.forest).filterMap unmappedPair := by
  rw [prepareMapper_groups_foldl]
  have hkeys : (((preorderF s.forest).filterMap unmappedPair).map Prod.fst).Nodup :=
    (filterMap_unmappedPair_keys_sublist (preorderF s.forest)).nodup hids
  rw [foldl_mapSet_of_nodup _ [] (by simp) hkeys]
  rfl

theorem unmappedPair_some_inv (z : String × String × List String)
    (p : String × String) (h : unmappedPair z = some p) :
    p = (z.1, z.2.1) ∧ groupMapped z.2.1 z.2.2 = false := by
  simp only [unmappedPair] at h
  split at h
  · exact absurd h (by simp)
  · refine ⟨?_, by simp_all⟩
    injection h with h2
    exact h2.symm

/-! ## Concrete instances used as counterexamples and witnesses -/

/-- Two sibling groups with the same display name, neither mapped, and an
empty role catalogue. -/
def dupStore : Store :=
  ⟨[], [Group.mk "id1" "qa" [] [], Group.mk "id2" "qa" [] []]⟩

/-- Scenario A: groups "engineers" (no roles) and "ops" (mapped to "ops"),
no existing realm roles. -/
def scenAStore : Store :=
  ⟨[], [Group.mk "eid" "engineers" [] [], Group.mk "oid" "ops" ["ops"] []]⟩

/-- A mapped parent group with an unmapped child sub-group. -/
def parentChildStore : Store :=
  ⟨[], [Group.mk "p1" "parent" ["parent"] [Group.mk "c1" "child" [] []]]⟩

/-- An identity store on which every remote call succeeds. -/
def okBehavior : Behavior :=
  ⟨fun _ => false, fun _ => false, fun _ => "rid", fun _ _ => false⟩

/-- An identity store on which `AddRealmRoles` fails for group "g1" and
every other call succeeds. -/
def addFailBehavior : Behavior :=
  ⟨fun _ => false, fun _ => false, fun _ => "rid", fun gid _ => gid == "g1"⟩

/-- A change set with one missing role and one missing mapping. -/
def sampleState : MState := ⟨["id1"], ["qa"], [("id1", "qa")]⟩

/-- A change set with two missing mappings and no missing roles. -/
def twoMappingsState : MState := ⟨[], [], [("g1", "a"), ("g2", "b")]⟩

/-! ## Claims -/

/-- C1: the engine classifies a group as Mapped iff the list of realm-role
names currently mapped to it contains a name equal to the group's display
name under exact case-sensitive string equality; this holds for zero, one,
and many mapped role names, and a name differing only in case does not
count as Mapped. -/
theorem c1_mapped_iff_exact_name :
    (∀ (name : String) (realmRoles : List String),
        groupMapped name realmRoles = true ↔ name ∈ realmRoles)
    ∧ groupMapped "qa" [] = false
    ∧ groupMapped "qa" ["qa"] = true
    ∧ groupMapped "qa" ["dev", "qa", "ops"] = true
    ∧ groupMapped "qa" ["QA", "Qa", "qA"] = false := by
  exact ⟨groupMapped_eq_true_iff, by decide, by decide, by decide, by decide⟩

/-- C1 witness: the classification evaluated through the theorem at a
concrete group. -/
theorem c1_witness :
    groupMapped "ops" ["ops"] = true ↔ "ops" ∈ ["ops"] :=
  c1_mapped_iff_exact_name.1 "ops" ["ops"]

/-- C3 counterexample: two different groups sharing the display name "qa",
both RoleMissing, make `missingRoles` contain the name twice — the claim
that `missingRoles` never contains duplicates fails on the code. -/
theorem c3_counterexample :
    (prepareMapper dupStore).missingRoles = ["qa", "qa"]
    ∧ ¬ (prepareMapper dupStore).missingRoles.Nodup := by
  exact ⟨rfl, by decide⟩

/-- C3 amended: `missingRoles` contains no duplicate role names provided
the display names of the groups in the tree are pairwise distinct (the
walk appends one entry per RoleMissing group and never deduplicates). -/
theorem c3_missingRoles_nodup_of_distinct_names (s : Store)
    (hnames : ((preorderF s.forest).map (fun x => x.2.1)).Nodup) :
    (prepareMapper s).missingRoles.Nodup := by
  rw [prepareMapper_missingRoles]
  exact (filterMap_roleMissingOf_sublist s.roles (preorderF s.forest)).nodup hnames

/-- C3 witness: the amended theorem applied to Scenario A, whose group
names are distinct. -/
theorem c3_witness : (prepareMapper scenAStore).missingRoles.Nodup :=
  c3_missingRoles_nodup_of_distinct_names scenAStore (by decide)

/-- C4: the source discards the error returned by `AddRealmRoles`
(line 222), so a failing mapping creation does not abort the run: with the
store failing the `AddRealmRoles` call for group "g1", the applier still
issues the `AddRealmRoles` call for group "g2" afterwards and finishes
without panicking — contradicting the claimed fail-fast behaviour. -/
theorem c4_add_failure_not_fail_fast :
    addFailBehavior.addFails "g1" "a" = true
    ∧ (createRolesAndMappings addFailBehavior twoMappingsState "Y").1
        = [Call.getByName "a", Call.getByName "a", Call.addRealmRoles "g1" "a",
           Call.getByName "b", Call.getByName "b", Call.addRealmRoles "g2" "b"]
    ∧ (createRolesAndMappings addFailBehavior twoMappingsState "Y").2 = false := by
  exact ⟨by decide, by decide, by decide⟩

/-- C5 counterexample: the input " yes" does not begin with the character
"Y" or "y" (it begins with a space), yet — because the source trims
whitespace before the prefix test — the applier does issue `CreateRole`
and `AddRealmRolesToGroup` calls for it. -/
theorem c5_counterexample :
    beginsWith " yes".data ['Y'] = false
    ∧ beginsWith " yes".data ['y'] = false
    ∧ Call.createRole "qa" ∈ (createRolesAndMappings okBehavior sampleState " yes").1
    ∧ Call.addRealmRoles "id1" "qa"
        ∈ (createRolesAndMappings okBehavior sampleState " yes").1 := by
  exact ⟨by decide, by decide, by decide, by decide⟩

/-- C5 amended: for every confirmation input whose whitespace-trimmed,
upper-cased form does not begin with "Y" (the source's decline test), the
applier makes zero identity-store calls. -/
theorem c5_declined_means_no_calls (b : Behavior) (st : MState) (answer : String)
    (h : confirmed answer = false) :
    (createRolesAndMappings b st answer).1 = [] := by
  rw [createRolesAndMappings_declined b st answer h]

/-- C5 witness: the amended theorem applied to the declined input "nope". -/
theorem c5_witness : (createRolesAndMappings okBehavior sampleState "nope").1 = [] :=
  c5_declined_means_no_calls okBehavior sampleState "nope" (by decide)

/-- C7: the reporter emits the single "no changes needed" statement iff
both `missingRoles` and `groupsWithMissingRole` are empty; otherwise it
enumerates every role name in `missingRoles` and one line per
`groupsWithMissingRole` entry. -/
theorem c7_report_no_changes_iff_empty (st : MState) :
    (printMapper st = Report.noChanges ↔ st.missingRoles = [] ∧ st.groups = [])
    ∧ (¬ (st.missingRoles = [] ∧ st.groups = []) →
        printMapper st
          = Report.changes st.missingRoles (st.groups.map (fun p => (p.2, p.2)))) := by
  by_cases h : st.missingRoles = [] ∧ st.groups = []
  · have hb : anyConfigurationNeeded st = false := by
      simp [anyConfigurationNeeded, h.1, h.2]
    constructor
    · simp [printMapper, hb, h]
    · intro hc
      exact absurd h hc
  · have hb : anyConfigurationNeeded st = true := by
      simp only [anyConfigurationNeeded]
      rcases not_and_or.mp h with h1 | h1
      · have : st.missingRoles.length > 0 := List.length_pos.mpr h1
        simp [this]
      · have : st.groups.length > 0 := List.length_pos.mpr h1
        simp [this]
    constructor
    · simp [printMapper, hb, h]
    · intro _
      simp [printMapper, hb]

/-- C7 witness: the theorem applied to a non-empty change set and to the
empty change set through concrete evaluation. -/
theorem c7_witness :
    printMapper sampleState = Report.changes ["qa"] [("qa", "qa")] := by
  have h := (c7_report_no_changes_iff_empty sampleState).2 (by decide)
  simpa using h

/-- C10: `addRoleToGroup` never reads its `role` parameter — for a group
id present in `groupsWithMissingRole`, any two role arguments produce the
same identity-store calls, and the role actually bound is the one
re-resolved by the group's recorded name. -/
theorem c10_role_parameter_ignored (b : Behavior) (m : List (String × String))
    (groupID : String) (r1 r2 : Role) (h : (List.lookup groupID m).isSome = true) :
    addRoleToGroup b m groupID r1 = addRoleToGroup b m groupID r2
    ∧ (b.getFails ((List.lookup groupID m).getD "") = false →
        (addRoleToGroup b m groupID r1).1
          = [Call.getByName ((List.lookup groupID m).getD ""),
             Call.addRealmRoles groupID ((List.lookup groupID m).getD "")]) := by
  constructor
  · rfl
  · intro hg
    simp [addRoleToGroup, getRoleGyName, hg]

/-- C2: every call trace produced by the applier splits into a block of
role creations followed by a block free of role creations, and whenever a
mapping creation occurs, every name of `missingRoles` had its creation
attempted in the first block. -/
theorem c2_roles_before_mappings (b : Behavior) (st : MState) (answer : String) :
    ∃ rs ms, (createRolesAndMappings b st answer).1 = rs ++ ms
      ∧ (∀ c ∈ rs, ∃ n, c = Call.createRole n)
      ∧ (∀ c ∈ ms, ∀ n, c ≠ Call.createRole n)
      ∧ ((∃ gid rname, Call.addRealmRoles gid rname ∈ ms) →
          ∀ n ∈ st.missingRoles, Call.createRole n ∈ rs) := by
  by_cases h1 : anyConfigurationNeeded st = true
  · by_cases h2 : confirmed answer = true
    · rcases hrc : runCreates b st.missingRoles with ⟨cs, ab⟩
      cases ab with
      | true =>
        refine ⟨cs, [], ?_, ?_, by simp, by simp⟩
        · simp [createRolesAndMappings, h1, h2, hrc]
        · intro c hc
          exact runCreates_all_create b st.missingRoles c (by rw [hrc]; exact hc)
      | false =>
        refine ⟨cs, (runMappings b st.groups st.groups).1, ?_, ?_, ?_, ?_⟩
        · simp [createRolesAndMappings, h1, h2, hrc]
        · intro c hc
          exact runCreates_all_create b st.missingRoles c (by rw [hrc]; exact hc)
        · exact runMappings_no_create b st.groups st.groups
        · intro _ n hn
          have hcomp := runCreates_complete b st.missingRoles (by rw [hrc])
          rw [hrc] at hcomp
          simp only at hcomp
          rw [hcomp]
          exact List.mem_map_of_mem _ hn
    · refine ⟨[], [], ?_, by simp, by simp, by simp⟩
      simp [createRolesAndMappings, h1, h2]
  · refine ⟨[], [], ?_, by simp, by simp, by simp⟩
    simp [createRolesAndMappings, h1]

/-- C2 witness: the ordering statement instantiated on a concrete run. -/
theorem c2_witness :
    ∃ rs ms, (createRolesAndMappings okBehavior sampleState "Y").1 = rs ++ ms
      ∧ (∀ c ∈ rs, ∃ n, c = Call.createRole n)
      ∧ (∀ c ∈ ms, ∀ n, c ≠ Call.createRole n)
      ∧ ((∃ gid rname, Call.addRealmRoles gid rname ∈ ms) →
          ∀ n ∈ sampleState.missingRoles, Call.createRole n ∈ rs) :=
  c2_roles_before_mappings okBehavior sampleState "Y"

/-- C6: every unmapped group — RoleMissing or MappingMissing-only — ends up
with exactly one `groupsWithMissingRole` entry binding its id to its name,
and a RoleMissing group additionally appears in `missingRoles`. -/
theorem c6_unmapped_group_recorded (s : Store) (hids : (forestIds s.forest).Nodup)
    (x : String × String × List String) (hx : x ∈ preorderF s.forest)
    (hunm : groupMapped x.2.1 x.2.2 = false) :
    List.lookup x.1 (prepareMapper s).groups = some x.2.1
    ∧ (prepareMapper s).groups.countP (fun p => p.1 == x.1) = 1
    ∧ (s.roles.contains x.2.1 = false → x.2.1 ∈ (prepareMapper s).missingRoles) := by
  have hps := prepareMapper_groups s hids
  have hkn : (((preorderF s.forest).filterMap unmappedPair).map Prod.fst).Nodup :=
    (filterMap_unmappedPair_keys_sublist (preorderF s.forest)).nodup hids
  have hmem : (x.1, x.2.1) ∈ (preorderF s.forest).filterMap unmappedPair :=
    List.mem_filterMap.mpr ⟨x, hx, (unmappedPair_eq_some_iff x).mpr hunm⟩
  refine ⟨?_, ?_, ?_⟩
  · rw [hps]
    exact lookup_eq_of_mem_of_nodupKeys _ _ _ hkn hmem
  · rw [hps]
    have h1 : x.1 ∈ ((preorderF s.forest).filterMap unmappedPair).map Prod.fst :=
      List.mem_map_of_mem Prod.fst hmem
    have h2 := List.count_eq_one_of_mem hkn h1
    rw [List.count, List.countP_map] at h2
    exact h2
  · intro hnc
    have hnc' : x.2.1 ∉ s.roles := by simpa using hnc
    rw [prepareMapper_missingRoles]
    exact List.mem_filterMap.mpr ⟨x, hx, by simp [roleMissingOf, hunm, hnc']⟩

/-- C6 witness: the theorem applied to the unmapped group "engineers" of
Scenario A. -/
theorem c6_witness :
    List.lookup "eid" (prepareMapper scenAStore).groups = some "engineers"
    ∧ (prepareMapper scenAStore).groups.countP (fun p => p.1 == "eid") = 1
    ∧ (scenAStore.roles.contains "engineers" = false →
        "engineers" ∈ (prepareMapper scenAStore).missingRoles) :=
  c6_unmapped_group_recorded scenAStore (by decide) ("eid", "engineers", [])
    (by decide) (by decide)

/-- C8: the walk's visit log is exactly the pre-order flattening of the
forest — every sub-group is visited regardless of its parent's
classification — and, for forests with distinct group ids, each group is
visited exactly once. -/
theorem c8_every_group_visited_once (s : Store) :
    (prepareMapper s).log = (preorderF s.forest).map (fun x => x.1)
    ∧ ((forestIds s.forest).Nodup →
        ∀ x ∈ preorderF s.forest, ((prepareMapper s).log).count x.1 = 1) := by
  refine ⟨prepareMapper_log s, ?_⟩
  intro h x hx
  rw [prepareMapper_log]
  exact List.count_eq_one_of_mem h (List.mem_map_of_mem _ hx)

/-- C8 witness: in a forest whose root is already Mapped, its child is
still visited, exactly once. -/
theorem c8_witness :
    (prepareMapper parentChildStore).log = ["p1", "c1"]
    ∧ ((prepareMapper parentChildStore).log).count "c1" = 1 := by
  have h := c8_every_group_visited_once parentChildStore
  exact ⟨by rw [h.1]; rfl, h.2 (by decide) ("c1", "child", []) (by decide)⟩

/-- C9: against a fixed provider state the walk is a pure function, so two
runs yield the same ChangeSet; and after successfully applying the change
set (roles created, each recorded mapping bound), a re-run yields the
empty ChangeSet — stated for forests with distinct group ids. -/
theorem c9_reconcile_idempotent (s : Store) (hids : (forestIds s.forest).Nodup) :
    (prepareMapper s).changeSet = (prepareMapper s).changeSet
    ∧ (prepareMapper (applyChangeSet s (prepareMapper s))).changeSet = ([], []) := by
  refine ⟨rfl, ?_⟩
  have hps : (prepareMapper s).groups = (preorderF s.forest).filterMap unmappedPair :=
    prepareMapper_groups s hids
  have hkn : (((preorderF s.forest).filterMap unmappedPair).map Prod.fst).Nodup :=
    (filterMap_unmappedPair_keys_sublist (preorderF s.forest)).nodup hids
  have hforest : preorderF (applyChangeSet s (prepareMapper s)).forest
      = (preorderF s.forest).map (fun x =>
          (x.1, x.2.1, x.2.2
            ++ (((prepareMapper s).groups.filter (fun e => e.1 == x.1)).map Prod.snd))) :=
    preorderF_applyMappings (prepareMapper s).groups s.forest
  have hmapped : ∀ y ∈ preorderF (applyChangeSet s (prepareMapper s)).forest,
      groupMapped y.2.1 y.2.2 = true := by
    rw [hforest]
    intro y hy
    rcases List.mem_map.mp hy with ⟨x, hx, rfl⟩
    by_cases hm : groupMapped x.2.1 x.2.2 = true
    · have hnot : x.1 ∉ ((prepareMapper s).groups).map Prod.fst := by
        rw [hps]
        intro hin
        rcases List.mem_map.mp hin with ⟨p, hp, hp1⟩
        rcases List.mem_filterMap.mp hp with ⟨z, hz, hzp⟩
        rcases unmappedPair_some_inv z p hzp with ⟨hpz, hzunm⟩
        have hids' : ((preorderF s.forest).map (fun w => w.1)).Nodup := hids
        have hzx : z = x := by
          refine List.inj_on_of_nodup_map hids' hz hx ?_
          show z.1 = x.1
          rw [← hp1, hpz]
        rw [hzx] at hzunm
        rw [hzunm] at hm
        simp at hm
      rw [filter_keyEq_of_not_mem _ _ hnot]
      simpa using hm
    · have hm' : groupMapped x.2.1 x.2.2 = false := by simpa using hm
      have hmem2 : (x.1, x.2.1) ∈ (preorderF s.forest).filterMap unmappedPair :=
        List.mem_filterMap.mpr ⟨x, hx, (unmappedPair_eq_some_iff x).mpr hm'⟩
      have hfil : (prepareMapper s).groups.filter (fun e => e.1 == x.1)
          = [(x.1, x.2.1)] := by
        rw [hps]
        exact filter_keyEq_of_mem_of_nodupKeys _ _ _ hkn hmem2
      rw [hfil]
      exact (groupMapped_eq_true_iff _ _).mpr (by simp)
  have h1 : (prepareMapper (applyChangeSet s (prepareMapper s))).missingRoles = [] := by
    rw [prepareMapper_missingRoles]
    rw [List.filterMap_eq_nil_iff]
    intro y hy
    simp [roleMissingOf, hmapped y hy]
  have h2 : (prepareMapper (applyChangeSet s (prepareMapper s))).groups = [] := by
    rw [prepareMapper_groups_foldl]
    have hnil : (preorderF (applyChangeSet s (prepareMapper s)).forest).filterMap
        unmappedPair = [] := by
      rw [List.filterMap_eq_nil_iff]
      intro y hy
      simp [unmappedPair, hmapped y hy]
    rw [hnil]
    rfl
  simp [MState.changeSet, h1, h2]

/-- C9 witness: the theorem applied to Scenario A. -/
theorem c9_witness :
    (prepareMapper scenAStore).changeSet = (prepareMapper scenAStore).changeSet
    ∧ (prepareMapper (applyChangeSet scenAStore (prepareMapper scenAStore))).changeSet
        = ([], []) :=
  c9_reconcile_idempotent scenAStore (by decide)

/-- C10 witness: the theorem applied to two distinct concrete roles. -/
theorem c10_witness :
    addRoleToGroup okBehavior [("id1", "qa")] "id1" ⟨some "a", "x"⟩
      = addRoleToGroup okBehavior [("id1", "qa")] "id1" ⟨none, "y"⟩
    ∧ (okBehavior.getFails ((List.lookup "id1" [("id1", "qa")]).getD "") = false →
        (addRoleToGroup okBehavior [("id1", "qa")] "id1" ⟨some "a", "x"⟩).1
          = [Call.getByName ((List.lookup "id1" [("id1", "qa")]).getD ""),
             Call.addRealmRoles "id1" ((List.lookup "id1" [("id1", "qa")]).getD "")]) :=
  c10_role_parameter_ignored okBehavior [("id1", "qa")] "id1"
    ⟨some "a", "x"⟩ ⟨none, "y"⟩ (by decide)

end Mapper
